import Mathlib

/-!
# Verification of the Item Builder module (`pipe2py.modules.pipeitembuilder`)

The source under verification is `pipe2py/modules/pipeitembuilder.py`,
whose core is the `parser` function:

```
dicts = [{a.key: a.value} for a in attrs]
feed = kwargs['feed'] if skip else DotDict(cdicts(*dicts))
return feed, skip
```

`parser` normalizes each attribute descriptor into a one-entry flat mapping
and then either returns the upstream item (`skip = true`, reading
`kwargs['feed']`, which fails when absent) or merges the flat mappings into
a single nested item, interpreting dots in keys as nesting
(`DotDict(cdicts(*dicts))`).

The helpers `DotDict`, `combine_dicts` (`cdicts`) and `Objectify` live in
`pipe2py/lib`, outside the source files available here; they are modelled
from the specification (its §4.1 Attribute Normalizer and §4.2 Path-Merge
Builder algorithm), as marked in the doc comments below.
-/

set_option autoImplicit false

namespace ItemBuilder

variable {α : Type}

/-- A nested item value: either a leaf (an attribute value, of arbitrary
type `α`) or a nested mapping (insertion-ordered association list, matching
Python `dict` observable semantics). -/
inductive Value (α : Type) where
  | leaf : α → Value α
  | node : List (String × Value α) → Value α
deriving Repr

/-- The output record shape: a mapping from string keys to values, where a
value may itself be a nested mapping (spec §3, NestedItem). -/
abbrev NestedItem (α : Type) := List (String × Value α)

/-- Python-`dict` lookup over the association-list model. -/
def lookup : NestedItem α → String → Option (Value α)
  | [], _ => none
  | (k', v') :: rest, k => if k' = k then some v' else lookup rest k

/-- Python-`dict` key assignment over the association-list model: an
existing key is updated in place (keeping its position), a new key is
appended (insertion order). -/
def setKey : NestedItem α → String → Value α → NestedItem α
  | [], k, v => [(k, v)]
  | (k', v') :: rest, k, v =>
      if k' = k then (k, v) :: rest else (k', v') :: setKey rest k v

/-- Helper for `splitDot`: accumulates the current segment (reversed) while
scanning the characters. -/
def splitDotAux : List Char → List Char → List (List Char)
  | [], acc => [acc.reverse]
  | c :: cs, acc =>
      if c = '.' then acc.reverse :: splitDotAux cs [] else splitDotAux cs (c :: acc)

/-- Modelled from the spec: splitting a key on the `.` separator into path
segments (spec §4.2 step 2a; the split itself happens inside the missing
`DotDict` helper).  Matches Python `key.split('.')`: the result is never
empty, an empty string yields `[""]`, and consecutive separators yield
empty segments. -/
def splitDot (s : String) : List String :=
  (splitDotAux s.data []).map (fun l => ⟨l⟩)

/-- The nested mapping found at an intermediate position: an existing
nested mapping is reused, a missing or non-mapping occupant is replaced by
a fresh empty mapping (spec §4.2 step 2b, last write wins, no error). -/
def childMap : Option (Value α) → NestedItem α
  | some (Value.node n) => n
  | _ => []

/-- Modelled from the spec: one dotted-path write of the Path-Merge Builder
(spec §4.2 steps 2b and 2c, inside the missing `DotDict` helper).  Walks
the path from the root, reusing an existing nested mapping at each
intermediate segment and replacing a missing or non-mapping occupant with a
fresh mapping, then sets the leaf segment to the value. -/
def setPath (m : NestedItem α) : List String → α → NestedItem α
  | [], _ => m
  | [k], v => setKey m k (Value.leaf v)
  | k :: k' :: rest, v =>
      setKey m k (Value.node (setPath (childMap (lookup m k)) (k' :: rest) v))

/-- Walks a path from the root of a nested item, returning the value found
at the end of the path (entering only nested mappings at intermediate
segments).  Used to state reachability of leaves (spec §3 invariant). -/
def getPath (m : NestedItem α) : List String → Option (Value α)
  | [] => none
  | [k] => lookup m k
  | k :: k' :: rest =>
      match lookup m k with
      | some (Value.node n) => getPath n (k' :: rest)
      | _ => none

/-- Modelled from the spec: the Path-Merge Builder (spec §4.2, the missing
`DotDict(cdicts(*dicts))` composition of line 67 of the source).  Folds the
ordered sequence of flat (key, value) pairs into one nested item,
left-to-right, splitting each key on `.`. -/
def mergeAttrs (ds : List (String × α)) : NestedItem α :=
  ds.foldl (fun m kv => setPath m (splitDot kv.1) kv.2) []

/-- An attribute descriptor as `parser` receives it: a duck-typed object
whose `key` and `value` attributes may each be missing (Python raises
`AttributeError` on access of a missing one). -/
structure Attr (α : Type) where
  key : Option String
  value : Option α

/-- The failure kinds of the module (spec §7 taxonomy). -/
inductive BuildError where
  | invalidAttribute
  | upstreamMissing
deriving DecidableEq, Repr

/-- Modelled from the spec: the Attribute Normalizer (spec §4.1, realized
in the source by the comprehension `{a.key: a.value}` over the missing
`Objectify` wrapper).  A descriptor lacking a usable `key` or `value`
attribute fails with the `InvalidAttribute` kind. -/
def normalize (a : Attr α) : Except BuildError (String × α) :=
  match a.key, a.value with
  | some k, some v => Except.ok (k, v)
  | _, _ => Except.error BuildError.invalidAttribute

/-- The list comprehension `[{a.key: a.value} for a in attrs]` of line 66:
normalizes every descriptor, eagerly and left to right, stopping at the
first failing one (a Python list comprehension raises at the first bad
element). -/
def normalizeAll : List (Attr α) → Except BuildError (List (String × α))
  | [] => Except.ok []
  | a :: rest =>
      match normalize a with
      | Except.error e => Except.error e
      | Except.ok kv =>
          match normalizeAll rest with
          | Except.error e => Except.error e
          | Except.ok ds => Except.ok (kv :: ds)

/-- The `parser` function of `pipeitembuilder.py` (lines 66–68):

```
dicts = [{a.key: a.value} for a in attrs]
feed = kwargs['feed'] if skip else DotDict(cdicts(*dicts))
return feed, skip
```

The list comprehension normalizes every descriptor eagerly, before the
skip decision.  With `skip = true` the upstream item `kwargs['feed']` is
returned (its absence fails, the spec's `UpstreamMissing` kind); otherwise
the flat mappings are merged into a fresh nested item.  Either way the
second component of the returned pair is the given `skip`. -/
def parser (attrs : List (Attr α)) (skip : Bool) (feed : Option (NestedItem α)) :
    Except BuildError (NestedItem α × Bool) :=
  match normalizeAll attrs with
  | Except.error e => Except.error e
  | Except.ok dicts =>
      if skip then
        match feed with
        | some f => Except.ok (f, skip)
        | none => Except.error BuildError.upstreamMissing
      else
        Except.ok (mergeAttrs dicts, skip)

/-- Convenience constructor for a well-formed descriptor. -/
def attr (k : String) (v : α) : Attr α := ⟨some k, some v⟩

/-- Two paths conflict when one is a prefix of the other (equality
included): a later write at a conflicting path can destroy an earlier
leaf (spec §3 invariant's exception clause). -/
def Conflict (p q : List String) : Prop := p <+: q ∨ q <+: p

instance (p q : List String) : Decidable (Conflict p q) := by
  unfold Conflict; infer_instance

/-- The spec's description of the result of a single dotted write: a chain
of nested mappings, one per intermediate segment, terminating in a leaf
holding the value (spec §8, chain property).  Stated from the spec's words,
to be compared with `mergeAttrs`. -/
def specChain : List String → α → NestedItem α
  | [], _ => []
  | [k], v => [(k, Value.leaf v)]
  | k :: k' :: rest, v => [(k, Value.node (specChain (k' :: rest) v))]

end ItemBuilder

namespace ItemBuilder

variable {α : Type}

/-! ## Basic lemmas about the dictionary model -/

theorem lookup_setKey_self (m : NestedItem α) (k : String) (v : Value α) :
    lookup (setKey m k v) k = some v := by
  induction m with
  | nil => simp [setKey, lookup]
  | cons kv rest ih =>
    obtain ⟨k', v'⟩ := kv
    by_cases h : k' = k
    · simp [setKey, lookup, h]
    · simp [setKey, lookup, h, ih]

theorem lookup_setKey_ne (m : NestedItem α) {k k' : String} (v : Value α)
    (h : k' ≠ k) : lookup (setKey m k v) k' = lookup m k' := by
  have hkk : ¬ (k = k') := fun he => h he.symm
  induction m with
  | nil => simp [setKey, lookup, hkk]
  | cons kv rest ih =>
    obtain ⟨k₀, v₀⟩ := kv
    by_cases hk : k₀ = k
    · subst hk
      simp [setKey, lookup, hkk]
    · simp [setKey, lookup, hk, ih]

theorem getPath_nil (p : List String) : getPath ([] : NestedItem α) p = none := by
  rcases p with _ | ⟨k, _ | ⟨k', r⟩⟩ <;> rfl

/-! ## Lemmas about key splitting -/

theorem splitDotAux_ne_nil (l acc : List Char) : splitDotAux l acc ≠ [] := by
  induction l generalizing acc with
  | nil => simp [splitDotAux]
  | cons c cs ih =>
    by_cases h : c = '.'
    · simp [splitDotAux, h]
    · simp [splitDotAux, h, ih]

theorem splitDot_ne_nil (s : String) : splitDot s ≠ [] := by
  intro h
  exact splitDotAux_ne_nil s.data [] (List.map_eq_nil_iff.mp h)

theorem splitDotAux_no_dot (l : List Char) (hl : ('.' : Char) ∉ l) (acc : List Char) :
    splitDotAux l acc = [acc.reverse ++ l] := by
  induction l generalizing acc with
  | nil => simp [splitDotAux]
  | cons c cs ih =>
    have hc : c ≠ '.' := fun h => hl (h ▸ List.mem_cons_self c cs)
    have hcs : ('.' : Char) ∉ cs := fun h => hl (List.mem_cons_of_mem c h)
    rw [splitDotAux, if_neg hc, ih hcs (c :: acc)]
    simp

theorem splitDot_no_dot (s : String) (hs : ('.' : Char) ∉ s.data) :
    splitDot s = [s] := by
  simp [splitDot, splitDotAux_no_dot s.data hs []]

/-! ## Conflict helper lemmas -/

theorem not_conflict_of_cons {k : String} {p q : List String}
    (h : ¬ Conflict (k :: p) (k :: q)) : ¬ Conflict p q := by
  intro hc
  apply h
  rcases hc with ⟨t, ht⟩ | ⟨t, ht⟩
  · exact Or.inl ⟨t, by simp [ht]⟩
  · exact Or.inr ⟨t, by simp [ht]⟩

theorem conflict_single_left (k : String) (qt : List String) :
    Conflict [k] (k :: qt) :=
  Or.inl ⟨qt, rfl⟩

theorem conflict_single_right (k : String) (pt : List String) :
    Conflict (k :: pt) [k] :=
  Or.inr ⟨pt, rfl⟩

/-! ## Reading back a written path -/

theorem getPath_setPath_self (p : List String) (m : NestedItem α) (v : α)
    (hp : p ≠ []) :
    getPath (setPath m p v) p = some (Value.leaf v) := by
  induction p generalizing m with
  | nil => exact absurd rfl hp
  | cons k pt ih =>
    cases pt with
    | nil => simp [setPath, getPath, lookup_setKey_self]
    | cons k' rest =>
      simp only [setPath, getPath, lookup_setKey_self]
      exact ih _ (List.cons_ne_nil k' rest)

/-- A write at a path `q` that neither extends nor is extended by `p`
leaves every read at `p` unchanged. -/
theorem getPath_setPath_of_not_conflict (q : List String) :
    ∀ (p : List String) (m : NestedItem α) (v : α), p ≠ [] →
      ¬ Conflict p q → getPath (setPath m q v) p = getPath m p := by
  induction q with
  | nil => intro p m v _ _; rfl
  | cons k qt ih =>
    intro p m v hp hc
    rcases p with _ | ⟨k₀, pt⟩
    · exact absurd rfl hp
    cases qt with
    | nil =>
      have hne : k₀ ≠ k := by
        intro he; subst he
        exact hc (conflict_single_right k₀ pt)
      cases pt with
      | nil => simp [setPath, getPath, lookup_setKey_ne m _ hne]
      | cons c cs => simp [setPath, getPath, lookup_setKey_ne m _ hne]
    | cons k' qt' =>
      by_cases hk : k₀ = k
      · subst hk
        cases pt with
        | nil => exact absurd (conflict_single_left k₀ (k' :: qt')) hc
        | cons c cs =>
          have hsub : ¬ Conflict (c :: cs) (k' :: qt') := not_conflict_of_cons hc
          simp only [setPath, getPath, lookup_setKey_self]
          rw [ih (c :: cs) _ v (List.cons_ne_nil c cs) hsub]
          cases hm : lookup m k₀ with
          | none => simp [childMap, getPath_nil]
          | some w =>
            cases w with
            | leaf a => simp [childMap, getPath_nil]
            | node n => simp [childMap]
      · cases pt with
        | nil => simp [setPath, getPath, lookup_setKey_ne m _ hk]
        | cons c cs => simp [setPath, getPath, lookup_setKey_ne m _ hk]

/-- Folding further writes whose paths do not conflict with `p` leaves the
read at `p` unchanged. -/
theorem getPath_foldl_of_not_conflict (ds : List (String × α)) (m : NestedItem α)
    (p : List String) (hp : p ≠ [])
    (h : ∀ kv ∈ ds, ¬ Conflict p (splitDot kv.1)) :
    getPath (ds.foldl (fun m kv => setPath m (splitDot kv.1) kv.2) m) p
      = getPath m p := by
  induction ds generalizing m with
  | nil => rfl
  | cons d dt ih =>
    rw [List.foldl_cons,
        ih _ (fun kv hkv => h kv (List.mem_cons_of_mem d hkv)),
        getPath_setPath_of_not_conflict _ _ _ _ hp (h d (List.mem_cons_self d dt))]

/-- The merge invariant (spec §3): a descriptor whose path no later
descriptor conflicts with keeps its leaf, reachable by walking its path
from the root. -/
theorem mergeAttrs_getPath_decomp (l₁ l₂ : List (String × α)) (d : String × α)
    (h : ∀ kv ∈ l₂, ¬ Conflict (splitDot d.1) (splitDot kv.1)) :
    getPath (mergeAttrs (l₁ ++ d :: l₂)) (splitDot d.1) = some (Value.leaf d.2) := by
  rw [mergeAttrs, List.foldl_append, List.foldl_cons,
      getPath_foldl_of_not_conflict _ _ _ (splitDot_ne_nil _) h]
  exact getPath_setPath_self _ _ _ (splitDot_ne_nil _)

theorem mergeAttrs_getPath (ds : List (String × α)) (i : Nat) (hi : i < ds.length)
    (h : ∀ (j : Nat) (hj : j < ds.length), i < j →
        ¬ Conflict (splitDot ds[i].1) (splitDot ds[j].1)) :
    getPath (mergeAttrs ds) (splitDot ds[i].1) = some (Value.leaf ds[i].2) := by
  have key := mergeAttrs_getPath_decomp (ds.take i) (ds.drop (i + 1)) ds[i] ?_
  · rw [← List.drop_eq_getElem_cons hi, List.take_append_drop] at key
    exact key
  · intro kv hkv
    rw [List.mem_iff_getElem] at hkv
    obtain ⟨n, hn, he⟩ := hkv
    have hlen : (ds.drop (i + 1)).length = ds.length - (i + 1) :=
      List.length_drop (i + 1) ds
    have hj : i + 1 + n < ds.length := by omega
    have hds : ds[i + 1 + n] = kv := by
      rw [← he, List.getElem_drop]
    rw [← hds]
    exact h (i + 1 + n) hj (by omega)

/-! ## A single dotted write is a chain -/

theorem setPath_empty_eq_specChain (p : List String) (v : α) :
    setPath ([] : NestedItem α) p v = specChain p v := by
  induction p with
  | nil => rfl
  | cons k pt ih =>
    cases pt with
    | nil => rfl
    | cons k' rest =>
      simp only [setPath, lookup, childMap, setKey, specChain]
      rw [ih]

theorem mergeAttrs_singleton (k : String) (v : α) :
    mergeAttrs [(k, v)] = specChain (splitDot k) v := by
  simp only [mergeAttrs, List.foldl_cons, List.foldl_nil]
  exact setPath_empty_eq_specChain _ _

/-! ## Merging flat, fresh keys appends -/

theorem setKey_of_not_mem (m : NestedItem α) (k : String) (v : Value α)
    (h : k ∉ m.map Prod.fst) : setKey m k v = m ++ [(k, v)] := by
  induction m with
  | nil => rfl
  | cons kv rest ih =>
    obtain ⟨k₀, v₀⟩ := kv
    simp only [List.map_cons, List.mem_cons, not_or] at h
    obtain ⟨h1, h2⟩ := h
    have hk : k₀ ≠ k := fun he => h1 he.symm
    simp [setKey, hk, ih h2]

theorem foldl_setKey_fresh (ds : List (String × α)) :
    ∀ m : NestedItem α,
      (∀ kv ∈ ds, ('.' : Char) ∉ kv.1.data) →
      (∀ kv ∈ ds, kv.1 ∉ m.map Prod.fst) →
      ds.Pairwise (fun a b => a.1 ≠ b.1) →
      ds.foldl (fun m kv => setPath m (splitDot kv.1) kv.2) m
        = m ++ ds.map (fun kv => (kv.1, Value.leaf kv.2)) := by
  induction ds with
  | nil => intro m _ _ _; simp
  | cons d dt ih =>
    intro m hdots hfresh huniq
    obtain ⟨hhead, htail⟩ := List.pairwise_cons.mp huniq
    rw [List.foldl_cons, splitDot_no_dot d.1 (hdots d (List.mem_cons_self d dt))]
    have hstep : setPath m [d.1] d.2 = m ++ [(d.1, Value.leaf d.2)] :=
      setKey_of_not_mem m d.1 _ (hfresh d (List.mem_cons_self d dt))
    rw [hstep, ih (m ++ [(d.1, Value.leaf d.2)])
          (fun kv hkv => hdots kv (List.mem_cons_of_mem d hkv))
          ?fresh htail]
    · simp
    case fresh =>
      intro kv hkv
      simp only [List.map_append, List.mem_append, List.map_cons, List.map_nil,
        List.mem_cons, List.not_mem_nil, or_false, not_or]
      exact ⟨hfresh kv (List.mem_cons_of_mem d hkv),
        fun he => hhead kv hkv he.symm⟩

/-! ## Normalization lemmas -/

theorem normalize_error (a : Attr α) (e : BuildError)
    (h : normalize a = Except.error e) : e = BuildError.invalidAttribute := by
  obtain ⟨k, v⟩ := a
  cases k <;> cases v <;> simp [normalize] at h <;> simp [← h]

theorem normalizeAll_ok (attrs : List (Attr α))
    (h : ∀ a ∈ attrs, a.key.isSome = true ∧ a.value.isSome = true) :
    ∃ ds, normalizeAll attrs = Except.ok ds := by
  induction attrs with
  | nil => exact ⟨[], rfl⟩
  | cons a rest ih =>
    obtain ⟨hk, hv⟩ := h a (List.mem_cons_self a rest)
    obtain ⟨k, hk⟩ := Option.isSome_iff_exists.mp hk
    obtain ⟨v, hv⟩ := Option.isSome_iff_exists.mp hv
    obtain ⟨ds, hds⟩ := ih (fun b hb => h b (List.mem_cons_of_mem a hb))
    refine ⟨(k, v) :: ds, ?_⟩
    rw [normalizeAll, hds]
    simp [normalize, hk, hv]

theorem normalizeAll_error (attrs : List (Attr α)) (e : BuildError)
    (h : normalizeAll attrs = Except.error e) :
    e = BuildError.invalidAttribute := by
  induction attrs with
  | nil => exact Except.noConfusion h
  | cons a rest ih =>
    rw [normalizeAll] at h
    cases hn : normalize a with
    | error e' =>
      rw [hn] at h
      injection h with he
      subst he
      exact normalize_error a _ hn
    | ok kv =>
      rw [hn] at h
      cases hr : normalizeAll rest with
      | error e'' =>
        rw [hr] at h
        injection h with he
        subst he
        exact ih hr
      | ok ds =>
        rw [hr] at h
        exact Except.noConfusion h

/-! ## Claim theorems -/

/-- C1: merging an ordered descriptor sequence (skip=false) yields a nested
item in which every descriptor whose dotted path is in conflict with (a
prefix of, extended by, or equal to) no later descriptor's path keeps a
leaf holding its value, reachable by walking its path from the root
(left-to-right, last write wins); in particular, for two descriptors with
identical full paths and different values, the resulting leaf holds the
later descriptor's value, however many other descriptors are interleaved
(subject to the same carve-out: no descriptor after the later duplicate
conflicts with that path). -/
theorem merge_invariant_last_write_wins (ds : List (String × α)) :
    (∀ (i : Nat) (hi : i < ds.length),
        (∀ (j : Nat) (hj : j < ds.length), i < j →
            ¬ Conflict (splitDot ds[i].1) (splitDot ds[j].1)) →
        getPath (mergeAttrs ds) (splitDot ds[i].1) = some (Value.leaf ds[i].2))
    ∧ (∀ (i j : Nat) (hi : i < ds.length) (hj : j < ds.length), i < j →
        splitDot ds[i].1 = splitDot ds[j].1 →
        ds[i].2 ≠ ds[j].2 →
        (∀ (n : Nat) (hn : n < ds.length), j < n →
            ¬ Conflict (splitDot ds[j].1) (splitDot ds[n].1)) →
        getPath (mergeAttrs ds) (splitDot ds[i].1) = some (Value.leaf ds[j].2)) := by
  constructor
  · intro i hi h
    exact mergeAttrs_getPath ds i hi h
  · intro i j hi hj hij hpath hv h
    rw [hpath]
    exact mergeAttrs_getPath ds j hj h

/-- Witness for C1: in `[a.b ↦ 1, x ↦ 5, a.b ↦ 2]` the leaf at path
`a.b` holds the later value 2, across the interleaved descriptor `x`. -/
theorem merge_invariant_last_write_wins_witness :
    getPath (mergeAttrs [("a.b", (1 : Nat)), ("x", 5), ("a.b", 2)]) (splitDot "a.b")
      = some (Value.leaf 2) :=
  (merge_invariant_last_write_wins [("a.b", (1 : Nat)), ("x", 5), ("a.b", 2)]).2
    0 2 (by decide) (by decide) (by decide) rfl (by decide)
    (by
      intro n hn hgt
      simp only [List.length_cons, List.length_nil] at hn
      exact absurd hn (by omega))

/-- C2: merging `[a.b ↦ 1, a.b.c ↦ 2]` with skip=false returns exactly
`{"a": {"b": {"c": 2}}}`: the second descriptor overwrites the scalar
previously written at path `a.b` with a nested mapping (last write wins,
no error raised). -/
theorem merge_overwrites_scalar_with_mapping :
    parser [attr "a.b" (1 : Nat), attr "a.b.c" 2] false none
      = Except.ok ([("a", Value.node [("b", Value.node [("c", Value.leaf 2)])])],
          false) := rfl

/-- C3: merging `[title ↦ "the title", desc.content ↦ "the desc"]` with
skip=false returns exactly `{"title": "the title", "desc": {"content":
"the desc"}}`; and in general a single descriptor with a dot-path of
length k merges to a chain of k-1 nested mappings terminating in a leaf
holding its value (`specChain`, written from the spec's words). -/
theorem merge_dot_path_scenario_and_chain :
    parser [attr "title" "the title", attr "desc.content" "the desc"] false none
      = Except.ok ([("title", Value.leaf "the title"),
          ("desc", Value.node [("content", Value.leaf "the desc")])], false)
    ∧ ∀ (β : Type) (key : String) (v : β),
        mergeAttrs [(key, v)] = specChain (splitDot key) v :=
  ⟨rfl, fun _ key v => mergeAttrs_singleton key v⟩

/-- C4: with skip=true the parser returns the supplied upstream item
unchanged, for every upstream item and every descriptor sequence (of
well-formed descriptors, each exposing `key` and `value`); the merged item
never influences the result. -/
theorem skip_returns_upstream_unchanged (attrs : List (Attr α))
    (f : NestedItem α)
    (h : ∀ a ∈ attrs, a.key.isSome = true ∧ a.value.isSome = true) :
    parser attrs true (some f) = Except.ok (f, true) := by
  obtain ⟨ds, hds⟩ := normalizeAll_ok attrs h
  simp only [parser, hds]
  rfl

/-- Witness for C4 at a concrete descriptor list and upstream item. -/
theorem skip_returns_upstream_unchanged_witness :
    parser [attr "k" (0 : Nat)] true (some [("x", Value.leaf 1)])
      = Except.ok ([("x", Value.leaf 1)], true) :=
  skip_returns_upstream_unchanged [attr "k" 0] [("x", Value.leaf 1)] (by decide)

/-- C5 (counterexample): merging the empty-key descriptor `{key: "",
value: "v"}` with skip=false does NOT fail with `InvalidAttribute`: it
returns a complete item `{"": "v"}` (the source performs no key
validation). -/
theorem empty_key_error_counterexample :
    parser [attr "" "v"] false none = Except.ok ([("", Value.leaf "v")], false)
    ∧ ∀ e : BuildError, parser [attr "" "v"] false none ≠ Except.error e :=
  ⟨rfl, fun _ h => Except.noConfusion h⟩

/-- C5 (amended): merging a descriptor whose key is the empty string, or
consists only of the `.` separator, succeeds with no error: the empty
segments become literal empty-string keys (`{key: "", value: v}` yields
`{"": v}`, and `{key: ".", value: v}` yields `{"": {"": v}}`), and a
complete nested item is returned. -/
theorem empty_key_merges_silently (v : α) (feed : Option (NestedItem α)) :
    parser [attr "" v] false feed = Except.ok ([("", Value.leaf v)], false)
    ∧ parser [attr "." v] false feed
        = Except.ok ([("", Value.node [("", Value.leaf v)])], false) :=
  ⟨rfl, rfl⟩

/-- C6: with skip=true and no upstream item supplied, the parser fails
with the `UpstreamMissing` kind (for well-formed descriptors, which pass
the eager normalization that runs first); conversely, whenever an
upstream item is supplied with skip=true, `UpstreamMissing` is never
raised (for any descriptors at all). -/
theorem skip_without_upstream_fails (attrs : List (Attr α)) :
    ((∀ a ∈ attrs, a.key.isSome = true ∧ a.value.isSome = true) →
        parser attrs true none = Except.error BuildError.upstreamMissing)
    ∧ ∀ f : NestedItem α,
        parser attrs true (some f) ≠ Except.error BuildError.upstreamMissing := by
  constructor
  · intro h
    obtain ⟨ds, hds⟩ := normalizeAll_ok attrs h
    simp only [parser, hds]
    rfl
  · intro f h
    simp only [parser] at h
    cases hn : normalizeAll attrs with
    | error e =>
      rw [hn] at h
      injection h with he
      have hinv := normalizeAll_error attrs e hn
      rw [he] at hinv
      exact BuildError.noConfusion hinv
    | ok ds =>
      rw [hn] at h
      exact Except.noConfusion h

/-- Witness for C6 at the empty descriptor list. -/
theorem skip_without_upstream_fails_witness :
    parser ([] : List (Attr Nat)) true none
      = Except.error BuildError.upstreamMissing :=
  (skip_without_upstream_fails []).1 (by decide)

/-- C7: merging a non-empty sequence of descriptors with pairwise distinct
keys containing no `.` separator yields, in order, exactly one top-level
entry per descriptor mapping its key to its value, and no other keys. -/
theorem flat_unique_keys_merge (ds : List (String × α)) (_hne : ds ≠ [])
    (hdots : ∀ kv ∈ ds, ('.' : Char) ∉ kv.1.data)
    (huniq : ds.Pairwise (fun a b => a.1 ≠ b.1)) :
    mergeAttrs ds = ds.map (fun kv => (kv.1, Value.leaf kv.2)) := by
  have h := foldl_setKey_fresh ds [] hdots (by intro kv _; simp) huniq
  simpa [mergeAttrs] using h

/-- Witness for C7 at two flat descriptors. -/
theorem flat_unique_keys_merge_witness :
    mergeAttrs [("title", "t"), ("desc", "d")]
      = [("title", Value.leaf "t"), ("desc", Value.leaf "d")] :=
  flat_unique_keys_merge [("title", "t"), ("desc", "d")]
    (by decide) (by decide) (by decide)

/-- C8: the skip=false merge is deterministic and uses no shared state:
two invocations with the same descriptor sequence, under arbitrary (and
arbitrarily different) ambient upstream state, return structurally equal
results, which depend only on the descriptor sequence. -/
theorem merge_deterministic (attrs : List (Attr α))
    (feed₁ feed₂ : Option (NestedItem α)) :
    parser attrs false feed₁ = parser attrs false feed₂ := by
  simp only [parser]
  cases normalizeAll attrs <;> rfl

/-- C9: the normalization of line 66 runs over the entire descriptor
sequence before the skip decision, so a descriptor lacking a usable `key`
or `value` attribute makes the parser fail even in skip mode, with an
upstream item supplied and a well-formed descriptor first in the
sequence. -/
theorem normalization_eager_in_skip_mode (v₀ : α) (v : Option α) (k : String)
    (f : NestedItem α) :
    parser [attr "good" v₀, ⟨none, v⟩] true (some f)
      = Except.error BuildError.invalidAttribute
    ∧ parser [attr "good" v₀, ⟨some k, none⟩] true (some f)
      = Except.error BuildError.invalidAttribute :=
  ⟨rfl, rfl⟩

/-- C10: whenever the parser returns a pair, its second component is
exactly the skip flag it was given; only the first component depends on
the skip decision. -/
theorem parser_returns_skip_flag (attrs : List (Attr α)) (skip : Bool)
    (feed : Option (NestedItem α)) (r : NestedItem α × Bool)
    (h : parser attrs skip feed = Except.ok r) : r.2 = skip := by
  simp only [parser] at h
  cases hn : normalizeAll attrs with
  | error e =>
    rw [hn] at h
    exact Except.noConfusion h
  | ok ds =>
    rw [hn] at h
    cases skip with
    | true =>
      cases feed with
      | some f =>
        injection h with he
        rw [← he]
      | none => exact Except.noConfusion h
    | false =>
      injection h with he
      rw [← he]

/-- Witness for C10 at a concrete successful call. -/
theorem parser_returns_skip_flag_witness :
    (([] : NestedItem Nat), false).2 = false :=
  parser_returns_skip_flag [] false none ([], false) rfl

-- sanity scenario checks (spec §8)
example : mergeAttrs [("title", "the title")] = [("title", Value.leaf "the title")] := rfl

example :
    mergeAttrs [("title", "the title"), ("desc.content", "the desc")] =
      [("title", Value.leaf "the title"),
       ("desc", Value.node [("content", Value.leaf "the desc")])] := rfl

example :
    mergeAttrs [("a.b", (1 : Nat)), ("a.b.c", 2)] =
      [("a", Value.node [("b", Value.node [("c", Value.leaf 2)])])] := rfl

example : splitDot "a.b.c" = ["a", "b", "c"] := rfl
example : splitDot "" = [""] := rfl
example : splitDot "." = ["", ""] := rfl

end ItemBuilder
